import Mathlib

/-!
# Verification of the tentaclio-gsheets spreadsheet range adapter

Shallow embedding of `src/tentaclio_gsheets/clients/gsheets_client.py`
(class `GoogleSheetsFsClient`) and proofs about its read/write pipeline.

Modelling conventions:
* Python strings are `List Char`; a cell is a string, a grid is a list of
  rows of cells.
* The remote service is a `Service` record holding the two responses the
  client can observe: the bulk values response and the metadata response.
  An `IndexError` while drilling into `response["sheets"][0]["data"][0]`
  is exactly the case where one of those lists is empty, so the metadata
  response is modelled structurally and `_get_metadata` returns `none`
  (Python `None`) in that case, as the `try/except IndexError` does.
* Python's `dict` returned by `_get_hidden` is either the empty dict `{}`
  (modelled `none`) or a dict with both keys (modelled `some HiddenDict`);
  a lookup `hidden["column_metadata"]` on the empty dict raises `KeyError`,
  modelled with `Except PyErr`.
* Remote calls are made observable as a `List Call` trace returned next to
  each function's value, in the order the Python code issues them.
* The `csv` module usage (`csv.writer`/`csv.reader`, delimiter `","`,
  `QUOTE_MINIMAL`, double-quote escaping, `"\r\n"` line terminator) is
  embedded as `encodeGrid` and `csvParse`.  `csvParse` follows the CPython
  reader state machine (non-strict dialect); inputs on which the Python
  reader raises (a bare `"\r"` mid-line in unquoted context) are out of
  scope of the claims, which only exercise reader inputs without them.
-/

namespace TentaclioGsheets

/-- A cell value: a Python string. -/
abbrev Cell := List Char

/-- A grid of values: rows of cells, rows may be ragged. -/
abbrev Grid := List (List Cell)

/-- One entry of `rowMetadata` / `columnMetadata` in the metadata response:
only the optional `hiddenByUser` field matters to the client. -/
structure DimProps where
  hiddenByUser : Option Bool
deriving DecidableEq, Repr

/-- The grid-data section `response["sheets"][i]["data"][j]`, with the
`rowMetadata` / `columnMetadata` lists (absent keys default to `[]` via
`metadata.get(..., [])`). -/
structure GridData where
  rowMetadata : List DimProps
  columnMetadata : List DimProps
deriving DecidableEq, Repr

/-- One entry of the `sheets` list of the metadata response. -/
structure SheetData where
  data : List GridData
deriving DecidableEq, Repr

/-- The metadata response of `spreadsheets().get(...)`. -/
structure GetResponse where
  sheets : List SheetData
deriving DecidableEq, Repr

/-- The dict built by `_get_hidden` when metadata is available:
`{"row_metadata": [...], "column_metadata": [...]}`. -/
structure HiddenDict where
  row_metadata : List Bool
  column_metadata : List Bool
deriving DecidableEq, Repr

/-- Adapter configuration, as set in `__init__`: the `header` flag is
accepted but unused by the read/write logic; `sheet_id` and `cell_range`
are the two components parsed from the url. -/
structure Config where
  header : Bool
  include_hidden_columns : Bool
  include_hidden_rows : Bool
  sheet_id : List Char
  cell_range : List Char
deriving DecidableEq, Repr

/-- The observable state of the remote service: the values response of
`values().get` (the `"values"` key, defaulting to `[]`), and the metadata
response of `spreadsheets().get`. -/
structure Service where
  valuesResp : Grid
  metadataResp : GetResponse
deriving DecidableEq, Repr

/-- One remote call, in the order issued. -/
inductive Call where
  | valuesGet
  | metadataGet
  | valuesUpdate (spreadsheetId : List Char) (range : List Char)
      (valueInputOption : List Char) (values : Grid)
deriving DecidableEq, Repr

/-- A Python exception escaping the modelled code. -/
inductive PyErr where
  | keyError (key : List Char)
deriving DecidableEq, Repr

/-- `_get_metadata`: issues the metadata call and drills into
`["sheets"][0]["data"][0]`; an empty list at either step is the
`IndexError` that is caught, logged and turned into `None`. -/
def _get_metadata (svc : Service) : Option GridData × List Call :=
  (match svc.metadataResp.sheets with
    | [] => none
    | s :: _ =>
      match s.data with
      | [] => none
      | d :: _ => some d,
   [Call.metadataGet])

/-- The per-entry classification in `_get_hidden`:
`col.get("hiddenByUser", None) is not None`, i.e. the field is present. -/
def entryHiddenFlag (e : DimProps) : Bool :=
  e.hiddenByUser.isSome

/-- `_get_hidden`: `{}` (here `none`) when `_get_metadata` returned `None`,
otherwise the dict of the two boolean lists. -/
def _get_hidden (svc : Service) : Option HiddenDict × List Call :=
  let mdc := _get_metadata svc
  (match mdc.1 with
    | none => none
    | some m =>
      some { row_metadata := m.rowMetadata.map entryHiddenFlag,
             column_metadata := m.columnMetadata.map entryHiddenFlag },
   mdc.2)

/-- The comprehension `[x for x, h in zip(xs, flags) if not h]`. -/
def zipDrop {α : Type} (xs : List α) (flags : List Bool) : List α :=
  ((xs.zip flags).filter (fun p => !p.2)).map Prod.fst

/-- `_drop_hidden`.  The column branch evaluates
`hidden["column_metadata"]` once per row inside the inner comprehension,
so an empty `values` list never touches the key; the row branch evaluates
`hidden["row_metadata"]` before zipping, so it raises `KeyError` on the
empty dict even for empty `values`. -/
def _drop_hidden {α : Type} (cfg : Config) (svc : Service)
    (values : List (List α)) : Except PyErr (List (List α)) × List Call :=
  let hc := _get_hidden svc
  let step1 : Except PyErr (List (List α)) :=
    if cfg.include_hidden_columns then .ok values
    else
      match values, hc.1 with
      | [], _ => .ok []
      | _ :: _, none => .error (.keyError "column_metadata".data)
      | vs, some h => .ok (vs.map (fun row => zipDrop row h.column_metadata))
  let step2 : Except PyErr (List (List α)) :=
    match step1 with
    | .error e => .error e
    | .ok vs =>
      if cfg.include_hidden_rows then .ok vs
      else
        match hc.1 with
        | none => .error (.keyError "row_metadata".data)
        | some h => .ok (zipDrop vs h.row_metadata)
  (step2, hc.2)

/-! ## CSV encoding (`csv.writer`, delimiter `","`, `QUOTE_MINIMAL`) -/

/-- Characters forcing `QUOTE_MINIMAL` quoting: the delimiter, the quote
character, and the characters of the `"\r\n"` line terminator. -/
def specialChar (c : Char) : Bool :=
  c = ',' || c = '"' || c = '\r' || c = '\n'

/-- Double every quote character (`doublequote=True`). -/
def escapeQuotes : List Char → List Char
  | [] => []
  | c :: cs =>
    if c = '"' then '"' :: '"' :: escapeQuotes cs else c :: escapeQuotes cs

/-- Wrap a field in quotes, doubling inner quotes. -/
def quoteWrap (f : List Char) : List Char :=
  '"' :: (escapeQuotes f ++ ['"'])

/-- Encode one field: quoted exactly when it contains a special character. -/
def encodeField (f : List Char) : List Char :=
  if f.any specialChar then quoteWrap f else f

/-- Join fields with the `","` delimiter. -/
def joinCommas : List (List Char) → List Char
  | [] => []
  | [f] => f
  | f :: fs => f ++ ',' :: joinCommas fs

/-- The body of one written row.  A row whose only field is empty is
written as a quoted empty field (CPython's writer special case, so the row
is not mistaken for a blank line); every other row is the joined encoded
fields. -/
def encodeRowBody (row : List (List Char)) : List Char :=
  match row with
  | [[]] => ['"', '"']
  | _ => joinCommas (row.map encodeField)

/-- One written row: body then the `"\r\n"` terminator. -/
def encodeRow (row : List (List Char)) : List Char :=
  encodeRowBody row ++ ['\r', '\n']

/-- `csv.writer` over the whole grid: rows written in order. -/
def encodeGrid : Grid → List Char
  | [] => []
  | r :: g => encodeRow r ++ encodeGrid g

/-! ## CSV parsing (`csv.reader`, same dialect, non-strict) -/

/-- Reader states, after CPython's `_csv.c`: `startRecord` at a record
boundary, `startField` right after a delimiter, `inField` inside an
unquoted field, `inQuoted` inside a quoted field, `afterQuote` right after
a quote inside a quoted field. -/
inductive CSt where
  | startRecord
  | startField
  | inField
  | inQuoted
  | afterQuote
  | eatCr
deriving DecidableEq, Repr

/-- The reader state machine.  `fld` is the current field buffer, `rec`
the fields of the current record; the result is the list of parsed
records.  A bare `"\n"` terminates a record immediately (it also ends the
line the reader iterates over); a `"\r"` terminates the record and enters
`eatCr` (CPython's `EAT_CRNL`), which swallows any further `"\r"`s and one
closing `"\n"`.  A non-newline character inside `eatCr` makes the Python
reader raise; here it starts the next record, a divergence only on inputs
where the Python call raises (never produced by the writer). -/
def csvRun : CSt → List Char → List (List Char) → List Char →
    List (List (List Char))
  | .startRecord, _, _, [] => []
  | .eatCr, _, _, [] => []
  | .startField, fld, rec, [] => [rec ++ [fld]]
  | .inField, fld, rec, [] => [rec ++ [fld]]
  | .inQuoted, fld, rec, [] => [rec ++ [fld]]
  | .afterQuote, fld, rec, [] => [rec ++ [fld]]
  | .startRecord, fld, rec, c :: rest =>
    if c = '\r' then rec :: csvRun .eatCr [] [] rest
    else if c = '\n' then rec :: csvRun .startRecord [] [] rest
    else if c = '"' then csvRun .inQuoted fld rec rest
    else if c = ',' then csvRun .startField [] (rec ++ [fld]) rest
    else csvRun .inField (fld ++ [c]) rec rest
  | .eatCr, fld, rec, c :: rest =>
    if c = '\r' then csvRun .eatCr fld rec rest
    else if c = '\n' then csvRun .startRecord [] [] rest
    else if c = '"' then csvRun .inQuoted fld rec rest
    else if c = ',' then csvRun .startField [] (rec ++ [fld]) rest
    else csvRun .inField (fld ++ [c]) rec rest
  | .startField, fld, rec, c :: rest =>
    if c = '\r' then (rec ++ [fld]) :: csvRun .eatCr [] [] rest
    else if c = '\n' then (rec ++ [fld]) :: csvRun .startRecord [] [] rest
    else if c = '"' then csvRun .inQuoted fld rec rest
    else if c = ',' then csvRun .startField [] (rec ++ [fld]) rest
    else csvRun .inField (fld ++ [c]) rec rest
  | .inField, fld, rec, c :: rest =>
    if c = '\r' then (rec ++ [fld]) :: csvRun .eatCr [] [] rest
    else if c = '\n' then (rec ++ [fld]) :: csvRun .startRecord [] [] rest
    else if c = ',' then csvRun .startField [] (rec ++ [fld]) rest
    else csvRun .inField (fld ++ [c]) rec rest
  | .inQuoted, fld, rec, c :: rest =>
    if c = '"' then csvRun .afterQuote fld rec rest
    else csvRun .inQuoted (fld ++ [c]) rec rest
  | .afterQuote, fld, rec, c :: rest =>
    if c = '"' then csvRun .inQuoted (fld ++ ['"']) rec rest
    else if c = ',' then csvRun .startField [] (rec ++ [fld]) rest
    else if c = '\r' then (rec ++ [fld]) :: csvRun .eatCr [] [] rest
    else if c = '\n' then (rec ++ [fld]) :: csvRun .startRecord [] [] rest
    else csvRun .inField (fld ++ [c]) rec rest

/-- `[row for row in csv.reader(text)]`. -/
def csvParse (s : List Char) : List (List (List Char)) :=
  csvRun .startRecord [] [] s

/-! ## The read and write paths -/

/-- `_prepare_to_csv`: drop hidden rows/columns, then serialize. -/
def _prepare_to_csv (cfg : Config) (svc : Service) (values : Grid) :
    Except PyErr (List Char) × List Call :=
  let dc := _drop_hidden cfg svc values
  (dc.1.map encodeGrid, dc.2)

/-- `get`: the bulk values fetch followed by `_prepare_to_csv` on its
result; the produced characters are what is encoded to UTF-8 and written
to the byte sink. -/
def get (cfg : Config) (svc : Service) : Except PyErr (List Char) × List Call :=
  let pc := _prepare_to_csv cfg svc svc.valuesResp
  (pc.1, Call.valuesGet :: pc.2)

/-- `_write_to_gsheets`: one `values().update` call with the configured
spreadsheet id, range, `"USER_ENTERED"`, and the grid as body. -/
def _write_to_gsheets (cfg : Config) (values : Grid) : List Call :=
  [Call.valuesUpdate cfg.sheet_id cfg.cell_range "USER_ENTERED".data values]

/-- `put`: decode the input bytes to text, parse it as CSV, write the
parsed grid. -/
def put (cfg : Config) (text : List Char) : List Call :=
  _write_to_gsheets cfg (csvParse text)

/-- UTF-8 encoding of one character (`str.encode("utf-8")`), bytes as
natural numbers below 256. -/
def utf8Bytes (c : Char) : List Nat :=
  let n := c.toNat
  if n < 128 then [n]
  else if n < 2048 then [192 + n / 64, 128 + n % 64]
  else if n < 65536 then
    [224 + n / 4096, 128 + (n / 64) % 64, 128 + n % 64]
  else
    [240 + n / 262144, 128 + (n / 4096) % 64, 128 + (n / 64) % 64,
     128 + n % 64]

/-- UTF-8 encoding of a string. -/
def utf8Encode : List Char → List Nat
  | [] => []
  | c :: s => utf8Bytes c ++ utf8Encode s

/-- Spec-side filter, from the spec's words: pair positions with flags,
keep exactly the entries whose flag is false, drop pairs beyond the
shorter of the two sequences. -/
def specKeep {α : Type} : List Bool → List α → List α
  | _, [] => []
  | [], _ :: _ => []
  | false :: fs, x :: xs => x :: specKeep fs xs
  | true :: fs, _ :: xs => specKeep fs xs

/-- A metadata response holding exactly one sheet with one grid-data
section carrying the given row/column metadata. -/
def mkSvc (vals : Grid) (rmd cmd : List DimProps) : Service :=
  { valuesResp := vals,
    metadataResp :=
      { sheets := [{ data := [{ rowMetadata := rmd, columnMetadata := cmd }] }] } }

/-! ## Reader/writer interaction lemmas -/

theorem specialChar_spec {c : Char} (h : specialChar c = false) :
    c ≠ ',' ∧ c ≠ '"' ∧ c ≠ '\r' ∧ c ≠ '\n' := by
  simp [specialChar] at h
  exact ⟨h.1.1.1, h.1.1.2, h.1.2, h.2⟩

theorem csvRun_startField_other {c : Char} (h1 : c ≠ '\r') (h2 : c ≠ '\n')
    (h3 : c ≠ '"') (h4 : c ≠ ',') (fld : List Char) (rec : List (List Char))
    (rest : List Char) :
    csvRun .startField fld rec (c :: rest) =
      csvRun .inField (fld ++ [c]) rec rest := by
  simp only [csvRun, if_neg h1, if_neg h2, if_neg h3, if_neg h4]

theorem csvRun_inField_other {c : Char} (h1 : c ≠ '\r') (h2 : c ≠ '\n')
    (h4 : c ≠ ',') (fld : List Char) (rec : List (List Char))
    (rest : List Char) :
    csvRun .inField fld rec (c :: rest) =
      csvRun .inField (fld ++ [c]) rec rest := by
  simp only [csvRun, if_neg h1, if_neg h2, if_neg h4]

theorem csvRun_inQuoted_other {c : Char} (h : c ≠ '"') (fld : List Char)
    (rec : List (List Char)) (rest : List Char) :
    csvRun .inQuoted fld rec (c :: rest) =
      csvRun .inQuoted (fld ++ [c]) rec rest := by
  simp only [csvRun, if_neg h]

theorem csvRun_startRecord_eq_startField {c : Char} (h1 : c ≠ '\r')
    (h2 : c ≠ '\n') (fld : List Char) (rec : List (List Char))
    (rest : List Char) :
    csvRun .startRecord fld rec (c :: rest) =
      csvRun .startField fld rec (c :: rest) := by
  simp only [csvRun, if_neg h1, if_neg h2]

/-- An unquoted run of plain characters is appended to the field buffer. -/
theorem csvRun_inField_run (f : List Char) (fld : List Char)
    (rec : List (List Char)) (rest : List Char)
    (hf : ∀ c ∈ f, specialChar c = false) :
    csvRun .inField fld rec (f ++ rest) =
      csvRun .inField (fld ++ f) rec rest := by
  induction f generalizing fld with
  | nil => simp
  | cons c cs ih =>
    obtain ⟨n1, n2, n3, n4⟩ := specialChar_spec (hf c (by simp))
    rw [List.cons_append, csvRun_inField_other n3 n4 n1,
      ih (fld ++ [c]) (fun x hx => hf x (by simp [hx]))]
    simp

/-- Inside a quoted field, reading the escaped text recovers the field. -/
theorem csvRun_inQuoted_run (f : List Char) (fld : List Char)
    (rec : List (List Char)) (rest : List Char) :
    csvRun .inQuoted fld rec (escapeQuotes f ++ rest) =
      csvRun .inQuoted (fld ++ f) rec rest := by
  induction f generalizing fld with
  | nil => simp [escapeQuotes]
  | cons c cs ih =>
    by_cases hc : c = '"'
    · subst hc
      rw [escapeQuotes, if_pos rfl]
      show csvRun .inQuoted fld rec ('"' :: ('"' :: (escapeQuotes cs ++ rest))) = _
      rw [show csvRun .inQuoted fld rec ('"' :: ('"' :: (escapeQuotes cs ++ rest)))
            = csvRun .inQuoted (fld ++ ['"']) rec (escapeQuotes cs ++ rest) from rfl,
        ih (fld ++ ['"'])]
      simp
    · rw [escapeQuotes, if_neg hc, List.cons_append, csvRun_inQuoted_other hc,
        ih (fld ++ [c])]
      simp

/-- Any-false characterization of `List.any`. -/
theorem all_specialChar_false {f : List Char} (hq : ¬ f.any specialChar = true) :
    ∀ c ∈ f, specialChar c = false := by
  intro c hc
  by_contra hcc
  exact hq (List.any_eq_true.mpr ⟨c, hc, by simpa using hcc⟩)

/-- Reading one encoded field followed by a delimiter. -/
theorem csvRun_encodeField_comma (f : List Char) (rec : List (List Char))
    (rest : List Char) :
    csvRun .startField [] rec (encodeField f ++ ',' :: rest) =
      csvRun .startField [] (rec ++ [f]) rest := by
  by_cases hq : f.any specialChar
  · rw [encodeField, if_pos hq, quoteWrap]
    have he : ('"' :: (escapeQuotes f ++ ['"'])) ++ ',' :: rest
        = '"' :: (escapeQuotes f ++ ('"' :: ',' :: rest)) := by simp
    rw [he,
      show csvRun .startField [] rec ('"' :: (escapeQuotes f ++ ('"' :: ',' :: rest)))
        = csvRun .inQuoted [] rec (escapeQuotes f ++ ('"' :: ',' :: rest)) from rfl,
      csvRun_inQuoted_run]
    rfl
  · rw [encodeField, if_neg hq]
    cases f with
    | nil => rfl
    | cons c cs =>
      obtain ⟨n1, n2, n3, n4⟩ :=
        specialChar_spec (all_specialChar_false hq c (by simp))
      rw [List.cons_append, csvRun_startField_other n3 n4 n2 n1,
        csvRun_inField_run cs ([] ++ [c]) rec (',' :: rest)
          (fun x hx => all_specialChar_false hq x (by simp [hx]))]
      rfl

/-- Reading one encoded field followed by the row terminator. -/
theorem csvRun_encodeField_crlf (f : List Char) (rec : List (List Char))
    (rest : List Char) :
    csvRun .startField [] rec (encodeField f ++ '\r' :: '\n' :: rest) =
      (rec ++ [f]) :: csvRun .startRecord [] [] rest := by
  by_cases hq : f.any specialChar
  · rw [encodeField, if_pos hq, quoteWrap]
    have he : ('"' :: (escapeQuotes f ++ ['"'])) ++ '\r' :: '\n' :: rest
        = '"' :: (escapeQuotes f ++ ('"' :: '\r' :: '\n' :: rest)) := by simp
    rw [he,
      show csvRun .startField [] rec
          ('"' :: (escapeQuotes f ++ ('"' :: '\r' :: '\n' :: rest)))
        = csvRun .inQuoted [] rec (escapeQuotes f ++ ('"' :: '\r' :: '\n' :: rest))
        from rfl,
      csvRun_inQuoted_run]
    rfl
  · rw [encodeField, if_neg hq]
    cases f with
    | nil => rfl
    | cons c cs =>
      obtain ⟨n1, n2, n3, n4⟩ :=
        specialChar_spec (all_specialChar_false hq c (by simp))
      rw [List.cons_append, csvRun_startField_other n3 n4 n2 n1,
        csvRun_inField_run cs ([] ++ [c]) rec ('\r' :: '\n' :: rest)
          (fun x hx => all_specialChar_false hq x (by simp [hx]))]
      rfl

theorem joinCommas_single (f : List Char) : joinCommas [f] = f := rfl

theorem joinCommas_cons (f g : List Char) (fs : List (List Char)) :
    joinCommas (f :: g :: fs) = f ++ ',' :: joinCommas (g :: fs) := rfl

/-- Reading a whole encoded record body from the first-field position. -/
theorem csvRun_fields (fs : List (List Char)) (h : fs ≠ [])
    (rec : List (List Char)) (rest : List Char) :
    csvRun .startField [] rec
        (joinCommas (fs.map encodeField) ++ '\r' :: '\n' :: rest) =
      (rec ++ fs) :: csvRun .startRecord [] [] rest := by
  induction fs generalizing rec with
  | nil => exact absurd rfl h
  | cons f fs ih =>
    cases fs with
    | nil =>
      rw [List.map_cons, List.map_nil, joinCommas_single, csvRun_encodeField_crlf]
    | cons g fs2 =>
      rw [List.map_cons, List.map_cons, joinCommas_cons, ← List.map_cons]
      rw [show (encodeField f ++ ',' :: joinCommas ((g :: fs2).map encodeField))
            ++ '\r' :: '\n' :: rest
          = encodeField f
            ++ ',' :: (joinCommas ((g :: fs2).map encodeField)
              ++ '\r' :: '\n' :: rest) by simp]
      rw [csvRun_encodeField_comma, ih (by simp) (rec ++ [f])]
      simp

/-- The body of a non-degenerate encoded row starts with a character that
is not part of a line terminator. -/
theorem encode_head_not_newline (f : List Char) (fs : List (List Char))
    (hne : ¬ (f = [] ∧ fs = [])) :
    ∃ c t, joinCommas ((f :: fs).map encodeField) = c :: t
      ∧ c ≠ '\r' ∧ c ≠ '\n' := by
  by_cases hq : f.any specialChar
  · cases fs with
    | nil =>
      refine ⟨'"', escapeQuotes f ++ ['"'], ?_, by decide, by decide⟩
      rw [List.map_cons, List.map_nil, joinCommas_single, encodeField, if_pos hq,
        quoteWrap]
    | cons g gs =>
      refine ⟨'"', escapeQuotes f ++ ['"']
        ++ ',' :: joinCommas ((g :: gs).map encodeField), ?_, by decide, by decide⟩
      rw [List.map_cons, List.map_cons, joinCommas_cons, ← List.map_cons,
        encodeField, if_pos hq, quoteWrap]
      simp
  · cases f with
    | nil =>
      cases fs with
      | nil => exact absurd ⟨rfl, rfl⟩ hne
      | cons g gs =>
        refine ⟨',', joinCommas ((g :: gs).map encodeField), ?_, by decide,
          by decide⟩
        rw [List.map_cons, List.map_cons, joinCommas_cons, ← List.map_cons,
          encodeField, if_neg hq]
        rfl
    | cons c cs =>
      obtain ⟨n1, n2, n3, n4⟩ :=
        specialChar_spec (all_specialChar_false hq c (by simp))
      cases fs with
      | nil =>
        exact ⟨c, cs, by rw [List.map_cons, List.map_nil, joinCommas_single,
          encodeField, if_neg hq], n3, n4⟩
      | cons g gs =>
        refine ⟨c, cs ++ ',' :: joinCommas ((g :: gs).map encodeField), ?_,
          n3, n4⟩
        rw [List.map_cons, List.map_cons, joinCommas_cons, ← List.map_cons,
          encodeField, if_neg hq]
        rfl

/-- Reading one encoded row emits exactly that row. -/
theorem csvRun_encodeRow (row : List (List Char)) (rest : List Char) :
    csvRun .startRecord [] [] (encodeRow row ++ rest) =
      row :: csvRun .startRecord [] [] rest := by
  rcases row with _ | ⟨f, fs⟩
  · rfl
  · by_cases hsp : f = [] ∧ fs = []
    · obtain ⟨hf, hfs⟩ := hsp
      subst hf
      subst hfs
      rfl
    · obtain ⟨c, t, hct, h1, h2⟩ := encode_head_not_newline f fs hsp
      have hbody : encodeRowBody (f :: fs)
          = joinCommas ((f :: fs).map encodeField) := by
        rcases fs with _ | ⟨g, gs⟩
        · rcases f with _ | ⟨a, as⟩
          · exact absurd ⟨rfl, rfl⟩ hsp
          · rfl
        · rcases f with _ | ⟨a, as⟩ <;> rfl
      have hin : joinCommas ((f :: fs).map encodeField) ++ '\r' :: '\n' :: rest
          = c :: (t ++ '\r' :: '\n' :: rest) := by
        rw [hct]
        rfl
      rw [encodeRow, hbody, List.append_assoc]
      rw [show ['\r', '\n'] ++ rest = '\r' :: '\n' :: rest from rfl]
      rw [hin, csvRun_startRecord_eq_startField h1 h2, ← hin,
        csvRun_fields (f :: fs) (by simp) [] rest]
      rfl

/-- Reading a whole encoded grid emits exactly its rows. -/
theorem csvRun_encodeGrid (g : Grid) (rest : List Char) :
    csvRun .startRecord [] [] (encodeGrid g ++ rest) =
      g ++ csvRun .startRecord [] [] rest := by
  induction g with
  | nil => rw [encodeGrid]; rfl
  | cons r g ih =>
    rw [encodeGrid, List.append_assoc, csvRun_encodeRow, ih]
    rfl

/-- The CSV round trip: parsing the writer's output recovers the grid. -/
theorem parse_encode (g : Grid) : csvParse (encodeGrid g) = g := by
  have h := csvRun_encodeGrid g []
  rw [List.append_nil] at h
  rw [csvParse, h]
  simp [csvRun]

/-! ## Filtering lemmas -/

/-- The zip/filter/map comprehension agrees with the positional
keep-unflagged filter. -/
theorem zipDrop_eq_specKeep {α : Type} (xs : List α) (flags : List Bool) :
    zipDrop xs flags = specKeep flags xs := by
  induction xs generalizing flags with
  | nil => cases flags <;> simp [zipDrop, specKeep]
  | cons x xs ih =>
    cases flags with
    | nil => simp [zipDrop, specKeep]
    | cons b bs =>
      have hz : zipDrop (x :: xs) (b :: bs)
          = if b then zipDrop xs bs else x :: zipDrop xs bs := by
        cases b <;> simp [zipDrop]
      cases b <;> simp [hz, specKeep, ih]

/-- The positional filter only ever drops elements. -/
theorem specKeep_sublist {α : Type} (flags : List Bool) (xs : List α) :
    (specKeep flags xs).Sublist xs := by
  induction xs generalizing flags with
  | nil => cases flags <;> simp [specKeep]
  | cons x xs ih =>
    cases flags with
    | nil => exact List.nil_sublist _
    | cons b bs =>
      cases b
      · exact (ih bs).cons₂ x
      · exact (ih bs).cons x

/-- The comprehension only ever drops elements. -/
theorem zipDrop_sublist {α : Type} (xs : List α) (flags : List Bool) :
    (zipDrop xs flags).Sublist xs := by
  rw [zipDrop_eq_specKeep]
  exact specKeep_sublist flags xs

theorem forall₂_sublist_refl {α : Type} (l : List (List α)) :
    List.Forall₂ (fun a b => List.Sublist a b) l l := by
  induction l with
  | nil => exact List.Forall₂.nil
  | cons x xs ih => exact List.Forall₂.cons (List.Sublist.refl x) ih

theorem forall₂_sublist_map {α : Type} (f : List α → List α)
    (hf : ∀ x, (f x).Sublist x) (l : List (List α)) :
    List.Forall₂ (fun a b => List.Sublist a b) (l.map f) l := by
  induction l with
  | nil => exact List.Forall₂.nil
  | cons x xs ih => exact List.Forall₂.cons (hf x) ih

theorem forall₂_mem_left {α : Type} {R : List α → List α → Prop}
    {l₁ l₂ : List (List α)} (h : List.Forall₂ R l₁ l₂) {a : List α}
    (ha : a ∈ l₁) : ∃ b ∈ l₂, R a b := by
  induction h with
  | nil => cases ha
  | @cons x y xs ys hr _ ih =>
    rcases List.mem_cons.mp ha with h1 | h2
    · exact ⟨y, List.mem_cons_self y ys, h1 ▸ hr⟩
    · obtain ⟨b, hb, hab⟩ := ih h2
      exact ⟨b, List.mem_cons_of_mem y hb, hab⟩

/-- Cells surviving a column-sublist-then-row-sublist filter all come from
the original grid. -/
theorem cells_from_values {α : Type} {mid values out : List (List α)}
    (h1 : List.Forall₂ (fun a b => List.Sublist a b) mid values)
    (h2 : out.Sublist mid) :
    ∀ row ∈ out, ∀ x ∈ row, ∃ row0 ∈ values, x ∈ row0 := by
  intro row hrow x hx
  obtain ⟨row0, hrow0, hsub⟩ := forall₂_mem_left h1 (h2.subset hrow)
  exact ⟨row0, hrow0, hsub.subset hx⟩

/-! ## Concrete fixtures -/

/-- The default configuration: both hidden-inclusion flags true. -/
def cfgDefaults : Config :=
  { header := true, include_hidden_columns := true,
    include_hidden_rows := true, sheet_id := "dunder-mifflin".data,
    cell_range := "dwight-schrute-range".data }

/-- Default configuration but excluding hidden columns. -/
def cfgNoHiddenCols : Config :=
  { cfgDefaults with include_hidden_columns := false }

/-- Default configuration but excluding hidden rows. -/
def cfgNoHiddenRows : Config :=
  { cfgDefaults with include_hidden_rows := false }

/-- A service whose metadata response has no grid-data section: reading
`["sheets"][0]` raises the `IndexError` caught in `_get_metadata`. -/
def svcNoGridData : Service :=
  { valuesResp := [["a".data]], metadataResp := { sheets := [] } }

/-! ## Claim theorems -/

/-- C1: the claim says that when the metadata fetch fails for lack of a
grid-data section, a read with hidden-column (or hidden-row) exclusion
still succeeds with nothing dropped.  The code disagrees: `_get_hidden`
returns the empty dict, and `_drop_hidden` then raises `KeyError` on
`hidden["column_metadata"]` (resp. `hidden["row_metadata"]`), so the read
fails instead of succeeding. -/
theorem read_fails_when_metadata_absent :
    (get cfgNoHiddenCols svcNoGridData).1
        = .error (.keyError "column_metadata".data)
      ∧ (get cfgNoHiddenRows svcNoGridData).1
        = .error (.keyError "row_metadata".data) :=
  ⟨rfl, rfl⟩

/-- C2 counterexample: a column-metadata entry whose hidden-by-user field
is present with value `false` is classified hidden by `_get_hidden`, not
visible as the claim states. -/
theorem hidden_false_entry_classified_hidden :
    (_get_hidden (mkSvc [] [] [{ hiddenByUser := some false }])).1
        = some { row_metadata := [], column_metadata := [true] }
      ∧ (_get_hidden (mkSvc [] [] [{ hiddenByUser := some false }])).1
        ≠ some { row_metadata := [], column_metadata := [false] } :=
  ⟨rfl, by decide⟩

/-- C2 (amended): a column (resp. row) position is classified hidden iff
its metadata entry carries the hidden-by-user field at all, whatever the
field's value; an entry without the field is classified visible. -/
theorem hidden_iff_field_present (svc : Service) (md : GridData)
    (hmd : (_get_metadata svc).1 = some md) (h : HiddenDict)
    (hh : (_get_hidden svc).1 = some h) (i : Nat) :
    (h.column_metadata[i]? = some true
        ↔ ∃ e, md.columnMetadata[i]? = some e ∧ e.hiddenByUser.isSome = true)
    ∧ (h.row_metadata[i]? = some true
        ↔ ∃ e, md.rowMetadata[i]? = some e ∧ e.hiddenByUser.isSome = true) := by
  have hrw : h =
      { row_metadata := md.rowMetadata.map entryHiddenFlag,
        column_metadata := md.columnMetadata.map entryHiddenFlag } := by
    rw [_get_hidden] at hh
    simp only [hmd] at hh
    exact (Option.some.injEq _ _).mp hh.symm
  have hcol : h.column_metadata = md.columnMetadata.map entryHiddenFlag := by
    rw [hrw]
  have hrowm : h.row_metadata = md.rowMetadata.map entryHiddenFlag := by
    rw [hrw]
  constructor
  · rw [hcol, List.getElem?_map]
    cases hcase : md.columnMetadata[i]? with
    | none => simp
    | some e => simp [entryHiddenFlag]
  · rw [hrowm, List.getElem?_map]
    cases hcase : md.rowMetadata[i]? with
    | none => simp
    | some e => simp [entryHiddenFlag]

/-- Witness for C2 (amended) at one sheet with one row entry lacking the
field and one column entry carrying it with value `false`. -/
theorem hidden_iff_field_present_witness :
    (({ row_metadata := [false], column_metadata := [true] }
        : HiddenDict).column_metadata[0]? = some true
      ↔ ∃ e, [({ hiddenByUser := some false } : DimProps)][0]? = some e
          ∧ e.hiddenByUser.isSome = true)
    ∧ (({ row_metadata := [false], column_metadata := [true] }
        : HiddenDict).row_metadata[0]? = some true
      ↔ ∃ e, [({ hiddenByUser := none } : DimProps)][0]? = some e
          ∧ e.hiddenByUser.isSome = true) :=
  hidden_iff_field_present
    (mkSvc [] [{ hiddenByUser := none }] [{ hiddenByUser := some false }])
    { rowMetadata := [{ hiddenByUser := none }],
      columnMetadata := [{ hiddenByUser := some false }] } rfl
    { row_metadata := [false], column_metadata := [true] } rfl 0

/-- C3: when both exclusions are enabled and visibility metadata is
available, the filtered grid is obtained by applying the positional
column filter to every row of the original grid, then the positional row
filter to the column-filtered grid. -/
theorem drop_hidden_cols_then_rows {α : Type} (hd : Bool)
    (sid rng : List Char) (svc : Service) (h : HiddenDict)
    (hh : (_get_hidden svc).1 = some h) (values : List (List α)) :
    (_drop_hidden
        { header := hd, include_hidden_columns := false,
          include_hidden_rows := false, sheet_id := sid, cell_range := rng }
        svc values).1
      = .ok (specKeep h.row_metadata
          (values.map (fun row => specKeep h.column_metadata row))) := by
  simp only [_drop_hidden, hh]
  cases values with
  | nil => simp [specKeep, zipDrop]
  | cons v vs =>
    simp only [List.map_cons]
    rw [zipDrop_eq_specKeep]
    simp [zipDrop_eq_specKeep]

/-- Witness for C3 on a two-by-two grid with the first column and the
second row hidden. -/
theorem drop_hidden_cols_then_rows_witness :
    (_drop_hidden
        { header := true, include_hidden_columns := false,
          include_hidden_rows := false, sheet_id := [], cell_range := [] }
        (mkSvc [] [{ hiddenByUser := none }, { hiddenByUser := some true }]
          [{ hiddenByUser := some true }, { hiddenByUser := none }])
        [[1, 2], [3, 4]]).1
      = .ok (specKeep [false, true]
          ([[1, 2], [3, 4]].map (fun row => specKeep [true, false] row))) :=
  drop_hidden_cols_then_rows true [] []
    (mkSvc [] [{ hiddenByUser := none }, { hiddenByUser := some true }]
      [{ hiddenByUser := some true }, { hiddenByUser := none }])
    { row_metadata := [false, true], column_metadata := [true, false] }
    rfl [[1, 2], [3, 4]]

/-- C4 counterexample: with both include-hidden flags true (no exclusion
requested) the read still issues the metadata call, so the claim that
only the bulk value fetch happens is false. -/
theorem metadata_call_issued_with_defaults :
    (get cfgDefaults (mkSvc [["a".data]] [] [])).2
        = [Call.valuesGet, Call.metadataGet]
      ∧ (get cfgDefaults (mkSvc [["a".data]] [] [])).2
        ≠ [Call.valuesGet] :=
  ⟨rfl, by decide⟩

/-- C4 (amended): the grid-metadata call is consumed on every read,
whatever the hidden-inclusion flags: a read's remote-call trace is always
the bulk value fetch followed by the metadata fetch. -/
theorem read_always_fetches_metadata (cfg : Config) (svc : Service) :
    (get cfg svc).2 = [Call.valuesGet, Call.metadataGet] :=
  rfl

/-- C5: with both include-hidden flags true, the filtering step is the
identity on the value grid, for every service response and every grid. -/
theorem drop_hidden_noop {α : Type} (hd : Bool) (sid rng : List Char)
    (svc : Service) (values : List (List α)) :
    (_drop_hidden
        { header := hd, include_hidden_columns := true,
          include_hidden_rows := true, sheet_id := sid, cell_range := rng }
        svc values).1 = .ok values :=
  rfl

/-- C6: encoding a grid of strings with the read path's CSV serializer
and parsing the text back with the write path's CSV parser yields the
original grid, every field the same string. -/
theorem csv_round_trip (g : Grid) : csvParse (encodeGrid g) = g :=
  parse_encode g

/-- C7: reading the single-row grid `[["name","age","job"]]` with the
default configuration produces exactly `"name,age,job"` followed by CRLF,
whose UTF-8 bytes are emitted; in general every encoded row is the
comma-joined minimally-quoted fields terminated by CRLF. -/
theorem encode_single_row_scenario :
    (get cfgDefaults (mkSvc [["name".data, "age".data, "job".data]] [] [])).1
        = .ok "name,age,job\r\n".data
      ∧ utf8Encode "name,age,job\r\n".data
        = [110, 97, 109, 101, 44, 97, 103, 101, 44, 106, 111, 98, 13, 10]
      ∧ ∀ row : List (List Char),
          encodeRow row = joinCommas (row.map encodeField) ++ ['\r', '\n']
          ∨ row = [[]] ∧ encodeRow row = ['"', '"', '\r', '\n'] := by
  refine ⟨rfl, by decide, ?_⟩
  intro row
  rcases row with _ | ⟨f, fs⟩
  · exact Or.inl rfl
  · rcases fs with _ | ⟨g, gs⟩
    · rcases f with _ | ⟨a, as⟩
      · exact Or.inr ⟨rfl, rfl⟩
      · exact Or.inl rfl
    · rcases f with _ | ⟨a, as⟩ <;> exact Or.inl rfl

/-- C8: a write issues exactly one update call, addressed to the
configured spreadsheet id and cell range, carrying the parsed grid
verbatim together with the user-entered interpretation flag; writing the
encoding of any grid carries exactly that grid. -/
theorem write_single_update_call (cfg : Config) (text : List Char) :
    put cfg text
        = [Call.valuesUpdate cfg.sheet_id cfg.cell_range
            "USER_ENTERED".data (csvParse text)]
      ∧ ∀ g : Grid, put cfg (encodeGrid g)
        = [Call.valuesUpdate cfg.sheet_id cfg.cell_range
            "USER_ENTERED".data g] :=
  ⟨rfl, fun g => by rw [put, parse_encode, _write_to_gsheets]⟩

/-- C9: a write of the empty byte sequence still issues exactly one
update call to the configured spreadsheet id and range, carrying the
empty grid with the user-entered flag. -/
theorem write_empty_input (cfg : Config) :
    put cfg [] = [Call.valuesUpdate cfg.sheet_id cfg.cell_range
      "USER_ENTERED".data []] :=
  rfl

/-- C10: whenever `_drop_hidden` succeeds, the output grid is a sublist
of a row-wise sublist of the input: rows keep their relative order, the
surviving cells of each row keep theirs, and every output cell occurs in
some input row. -/
theorem drop_hidden_preserves_order {α : Type} (cfg : Config)
    (svc : Service) (values out : List (List α))
    (h : (_drop_hidden cfg svc values).1 = .ok out) :
    ∃ mid : List (List α),
      List.Forall₂ (fun a b => List.Sublist a b) mid values
      ∧ out.Sublist mid
      ∧ ∀ row ∈ out, ∀ x ∈ row, ∃ row0 ∈ values, x ∈ row0 := by
  simp only [_drop_hidden] at h
  by_cases hcols : cfg.include_hidden_columns
  · by_cases hrows : cfg.include_hidden_rows
    · simp [hcols, hrows] at h
      subst out
      exact ⟨values, forall₂_sublist_refl values, List.Sublist.refl values,
        cells_from_values (forall₂_sublist_refl values)
          (List.Sublist.refl values)⟩
    · cases hhid : (_get_hidden svc).1 with
      | none => simp [hcols, hrows, hhid] at h
      | some hd =>
        simp [hcols, hrows, hhid] at h
        subst out
        exact ⟨values, forall₂_sublist_refl values,
          zipDrop_sublist values hd.row_metadata,
          cells_from_values (forall₂_sublist_refl values)
            (zipDrop_sublist values hd.row_metadata)⟩
  · cases hhid : (_get_hidden svc).1 with
    | none =>
      cases values with
      | nil =>
        by_cases hrows : cfg.include_hidden_rows
        · simp [hcols, hrows, hhid] at h
          subst out
          exact ⟨[], List.Forall₂.nil, List.Sublist.refl [],
            cells_from_values List.Forall₂.nil (List.Sublist.refl [])⟩
        · simp [hcols, hrows, hhid] at h
      | cons v vs => simp [hcols, hhid] at h
    | some hd =>
      by_cases hrows : cfg.include_hidden_rows
      · cases values with
        | nil =>
          simp [hcols, hrows, hhid] at h
          subst out
          exact ⟨[], List.Forall₂.nil, List.Sublist.refl [],
            cells_from_values List.Forall₂.nil (List.Sublist.refl [])⟩
        | cons v vs =>
          simp [hcols, hrows, hhid] at h
          subst out
          have hmid : List.Forall₂ (fun a b => List.Sublist a b)
              ((v :: vs).map (fun row => zipDrop row hd.column_metadata))
              (v :: vs) :=
            forall₂_sublist_map _
              (fun x => zipDrop_sublist x hd.column_metadata) (v :: vs)
          exact ⟨(v :: vs).map (fun row => zipDrop row hd.column_metadata),
            hmid, List.Sublist.refl _,
            cells_from_values hmid (List.Sublist.refl _)⟩
      · cases values with
        | nil =>
          simp [hcols, hrows, hhid, zipDrop] at h
          subst out
          exact ⟨[], List.Forall₂.nil, List.Sublist.refl [],
            cells_from_values List.Forall₂.nil (List.Sublist.refl [])⟩
        | cons v vs =>
          simp [hcols, hrows, hhid] at h
          subst out
          have hmid : List.Forall₂ (fun a b => List.Sublist a b)
              ((v :: vs).map (fun row => zipDrop row hd.column_metadata))
              (v :: vs) :=
            forall₂_sublist_map _
              (fun x => zipDrop_sublist x hd.column_metadata) (v :: vs)
          exact ⟨(v :: vs).map (fun row => zipDrop row hd.column_metadata),
            hmid, zipDrop_sublist _ hd.row_metadata,
            cells_from_values hmid (zipDrop_sublist _ hd.row_metadata)⟩

/-- Witness for C10 with the default configuration on a one-row grid. -/
theorem drop_hidden_preserves_order_witness :
    ∃ mid : List (List Nat),
      List.Forall₂ (fun a b => List.Sublist a b) mid [[1, 2]]
      ∧ List.Sublist [[1, 2]] mid
      ∧ ∀ row ∈ [[1, 2]], ∀ x ∈ row, ∃ row0 ∈ [[1, 2]], x ∈ row0 :=
  drop_hidden_preserves_order cfgDefaults (mkSvc [] [] []) [[1, 2]] [[1, 2]]
    rfl

end TentaclioGsheets
